import Mathlib

/-!
Verification of the f_table column-definition language and cell-layout
engine against its natural-language specification.

The package under verification ships only its test suite here; the layout
engine itself (module `f_table.f_table`: `ColDef`, `ColDefList`,
`get_table`, and the format-spec mini-language) is not present in the
source tree.  Every definition below is therefore a shallow embedding
reconstructed from the specification's description of that missing
module, and carries a doc comment saying what it models.  Cell texts are
modelled as `List Char`; the table renderer produces a `String` at the
boundary.  Fallible operations return `Except`.
-/

set_option autoImplicit false

namespace FTable

/-- Modelled from the spec: the cell values handled by the missing layout
engine (section 3, Row / Header): numbers, strings and the `none` value.
Dates, booleans and floats are collapsed into strings since no claim
distinguishes them. -/
inductive Value where
  | vnone : Value
  | vstr : String → Value
  | vint : Int → Value
deriving DecidableEq, Repr

/-- Modelled from the spec: `str(value)` as used by the fallback path of
the missing formatter (section 4.2): `none` renders as empty, strings as
themselves, integers in decimal. -/
def valueStr : Value → String
  | Value.vnone => ""
  | Value.vstr s => s
  | Value.vint n => toString n

/-- Digit recognition for the integer coercion below. -/
def isDigitChar (c : Char) : Bool :=
  '0' ≤ c && c ≤ '9'

/-- Value of a digit character. -/
def digitVal (c : Char) : Nat :=
  c.toNat - '0'.toNat

/-- Natural number denoted by a digit string (most significant first). -/
def natOfDigits (l : List Char) : Nat :=
  l.foldl (fun acc c => acc * 10 + digitVal c) 0

/-- Modelled from the spec: coercion of a value to the number required by
a numeric format type (section 4.2); fails on non-numeric input, and the
owning column definition decides the fallback policy. -/
def toNumeric : Value → Option Int
  | Value.vnone => Option.none
  | Value.vint n => some n
  | Value.vstr s =>
    match s.data with
    | [] => Option.none
    | '-' :: rest =>
      if rest ≠ [] && rest.all isDigitChar then some (-(natOfDigits rest : Int))
      else Option.none
    | l =>
      if l.all isDigitChar then some ((natOfDigits l : Int)) else Option.none

/-- Modelled from the spec: the FormatSpec descriptor (section 3): fill,
alignment, width, grouping separator, precision and type code of the
format mini-language.  The sign field is omitted: the spec marks
sign-aware padding as not required and no claim touches it. -/
structure FormatSpec where
  fill : Option Char := Option.none
  align : Option Char := Option.none
  width : Nat := 0
  grouping : Option Char := Option.none
  precision : Option Nat := Option.none
  typ : Option Char := Option.none
deriving DecidableEq, Repr

/-- Modelled from the spec: the numeric type codes of the format
mini-language (section 4.1): `d f % x X e g` coerce the value to a
number; `s` or no type means string conversion. -/
def FormatSpec.isNumeric (fs : FormatSpec) : Bool :=
  match fs.typ with
  | some c => c = 'd' || c = 'f' || c = '%' || c = 'x' || c = 'X' || c = 'e' || c = 'g'
  | Option.none => false

/-- Padding with a fill character. -/
def fillChars (c : Char) (n : Nat) : List Char :=
  List.replicate n c

/-- Modelled from the spec: the generic string-padding operation of
section 4.1: `<` pads on the right, `>` on the left, `^` centers with the
extra pad character on the right when the pad count is odd; the default
alignment behaves as left and the default fill is a space. -/
def alignPad (align : Option Char) (fill : Char) (w : Nat) (t : List Char) : List Char :=
  if w ≤ t.length then t
  else
    let pad := w - t.length
    if align = some '>' then fillChars fill pad ++ t
    else if align = some '^' then
      fillChars fill (pad / 2) ++ t ++ fillChars fill (pad - pad / 2)
    else t ++ fillChars fill pad

/-- Modelled from the spec: grouping inserts the requested separator
every three digits of the integer part (section 4.1). -/
def groupDigits (sep : Char) (l : List Char) : List Char :=
  (List.foldr
    (fun c acc =>
      let done : List Char := acc.1
      let cnt : Nat := acc.2
      if cnt % 3 = 0 ∧ cnt ≠ 0 then (c :: sep :: done, cnt + 1)
      else (c :: done, cnt + 1))
    (([] : List Char), (0 : Nat)) l).1

/-- Modelled from the spec: numeric rendering by the missing FormatSpec
formatter (section 4.1), restricted to the integer values of this model:
decimal digits with optional grouping, then the generic width/align/fill
padding.  Precision and the percent multiplier only affect fractional
values, which no claim exercises, so they are not modelled. -/
def FormatSpec.formatNum (fs : FormatSpec) (n : Int) : List Char :=
  let digits := (toString n).data
  let body :=
    match fs.grouping with
    | some g =>
      match digits with
      | '-' :: rest => '-' :: groupDigits g rest
      | l => groupDigits g l
    | Option.none => digits
  alignPad fs.align (fs.fill.getD ' ') fs.width body

/-- Modelled from the spec: string rendering by the missing FormatSpec
formatter (section 4.1): width/align/fill applied as a generic padding
operation. -/
def FormatSpec.formatStr (fs : FormatSpec) (t : List Char) : List Char :=
  alignPad fs.align (fs.fill.getD ' ') fs.width t

/-- Errors surfaced by the missing engine: a structurally malformed
column spec, and a strict numeric formatting failure (section 7). -/
inductive FTError where
  | invalidColDef : FTError
  | formatFailure : FTError
deriving DecidableEq, Repr

/-- Signature of a caller-supplied preprocessor: it receives the value,
the row and the column index and may fail (section 4.2); failure is
modelled as `Except.error`. -/
def PreFn : Type :=
  Value → List Value → Nat → Except String Value

/-- Signature of a caller-supplied postprocessor: it receives the
original value, the formatted text, the row and the column index and may
fail (section 4.2). -/
def PostFn : Type :=
  Value → List Char → List Value → Nat → Except String (List Char)

/-- Modelled from the spec: the ColumnDefinition descriptor (section 3):
total width (0 meaning auto), alignment, fill, the auto-fill / truncate /
no-wrap flags, prefix and suffix with independent alignment, the embedded
FormatSpec, the per-column none-text, the strict flag of section 4.2 and
the two processing hooks. -/
structure ColDef where
  width : Nat := 0
  align : Option Char := Option.none
  fill : Char := ' '
  autoFill : Bool := false
  truncate : Bool := false
  noWrap : Bool := false
  prefixText : String := ""
  prefixAlign : Option Char := Option.none
  suffixText : String := ""
  suffixAlign : Option Char := Option.none
  formatSpec : Option FormatSpec := Option.none
  noneText : String := ""
  strict : Bool := false
  preprocessor : Option PreFn := Option.none
  postprocessor : Option PostFn := Option.none

/-- Modelled from the spec: reserved-width (aligned-affix) mode holds
when both the prefix alignment and the suffix alignment are set
(section 3, glossary). -/
def ColDef.reserved (cd : ColDef) : Bool :=
  cd.prefixAlign.isSome && cd.suffixAlign.isSome

/-- Modelled from the spec: application of the caller-supplied
preprocessor (section 4.2): an exception raised by the hook is swallowed
and the original value is used instead. -/
def ColDef.preprocess (cd : ColDef) (v : Value) (row : List Value) (idx : Nat) : Value :=
  match cd.preprocessor with
  | Option.none => v
  | some f =>
    match f v row idx with
    | Except.ok v2 => v2
    | Except.error _ => v

/-- Modelled from the spec: application of the caller-supplied
postprocessor (section 4.2): an exception raised by the hook is swallowed
and the pre-postprocessor text is kept. -/
def ColDef.postprocess (cd : ColDef) (orig : Value) (t : List Char) (row : List Value) (idx : Nat) : List Char :=
  match cd.postprocessor with
  | Option.none => t
  | some f =>
    match f orig t row idx with
    | Except.ok t2 => t2
    | Except.error _ => t

/-- Modelled from the spec: the final pad-or-truncate stage of
`ColumnDefinition.format` (section 4.2): if `truncate` is set and the
text exceeds the width, cut to `width - 1` visible characters and append
a single ellipsis character; otherwise pad with the fill character
according to the alignment. -/
def ColDef.padOrTruncate (cd : ColDef) (t : List Char) : List Char :=
  if cd.truncate ∧ cd.width < t.length then t.take (cd.width - 1) ++ ['…']
  else alignPad cd.align cd.fill cd.width t

/-- Modelled from the spec: the pre-padding part of the missing
`ColumnDefinition.format` pipeline (section 4.2): apply the preprocessor
(failures swallowed); substitute the per-column none-text — or the
caller's global none-text when the per-column one is empty — for a
`none` value; otherwise attempt numeric formatting when a numeric
FormatSpec is present, falling back to plain `str(value)` on coercion
failure unless the strict flag surfaces it as a formatting error; then
concatenate prefix and suffix and run the postprocessor (failures
swallowed). -/
def ColDef.rawTextE (cd : ColDef) (globalNone : String) (row : List Value) (idx : Nat) (v : Value) : Except FTError (List Char) :=
  let v1 := cd.preprocess v row idx
  if v1 = Value.vnone then
    let core := if cd.noneText = "" then globalNone.data else cd.noneText.data
    Except.ok (cd.postprocess v1 core row idx)
  else
    let coreE : Except FTError (List Char) :=
      match cd.formatSpec with
      | some fs =>
        if fs.isNumeric then
          match toNumeric v1 with
          | some n => Except.ok (fs.formatNum n)
          | Option.none =>
            if cd.strict then Except.error FTError.formatFailure
            else Except.ok (valueStr v1).data
        else Except.ok (fs.formatStr (valueStr v1).data)
      | Option.none => Except.ok (valueStr v1).data
    match coreE with
    | Except.error e => Except.error e
    | Except.ok core =>
      let t := cd.prefixText.data ++ core ++ cd.suffixText.data
      Except.ok (cd.postprocess v1 t row idx)

/-- Modelled from the spec: the full single-line cell formatter of the
missing `ColumnDefinition.format` (section 4.2): the pre-padding pipeline
followed by the pad-or-truncate stage. -/
def ColDef.formatCellE (cd : ColDef) (globalNone : String) (row : List Value) (idx : Nat) (v : Value) : Except FTError (List Char) :=
  match cd.rawTextE globalNone row idx v with
  | Except.error e => Except.error e
  | Except.ok t => Except.ok (cd.padOrTruncate t)

/-- Modelled from the spec: the public `ColumnDefinition.format(value)`
operation (section 4.2), rendering one value with no surrounding table
context and an empty global none-text. -/
def ColDef.format (cd : ColDef) (v : Value) : Except FTError (List Char) :=
  cd.formatCellE "" [v] 0 v

/-- Modelled from the spec: stage 1/3 of the missing column-spec parser
(section 4.2): split `text "(" core ")" text` into the part before the
opening parenthesis, the parenthesized core and the part after the
closing parenthesis; a spec with no parentheses at all is entirely the
core; an unbalanced parenthesis is the one structurally malformed input
(`InvalidColDefError`). -/
def splitParens (s : List Char) : Except FTError (Option (List Char × List Char × List Char)) :=
  let bef := s.takeWhile (fun c => c ≠ '(')
  let rest := s.dropWhile (fun c => c ≠ '(')
  match rest with
  | [] =>
    if s.contains ')' then Except.error FTError.invalidColDef
    else Except.ok Option.none
  | _ :: afterOpen =>
    let inner := afterOpen.takeWhile (fun c => c ≠ ')')
    let rest2 := afterOpen.dropWhile (fun c => c ≠ ')')
    match rest2 with
    | [] => Except.error FTError.invalidColDef
    | _ :: afterClose => Except.ok (some (bef, inner, afterClose))

/-- Modelled from the spec: affix extraction (section 4.2, stages 1 and
3): the character immediately adjacent to the affix text, when one of
`<` or `>`, is its alignment and is removed; otherwise the affix is
unaligned. -/
def parseAffix (part : List Char) : Option Char × List Char :=
  match part with
  | c :: rest => if c = '<' ∨ c = '>' then (some c, rest) else (Option.none, part)
  | [] => (Option.none, [])

/-- Flag accumulator for the core flag scan: auto-fill, truncate,
no-wrap, strict. -/
structure Flags where
  autoFill : Bool := false
  truncate : Bool := false
  noWrap : Bool := false
  strict : Bool := false
deriving DecidableEq, Repr

/-- One step of the flag scan over the reversed core. -/
def flagStep (fl : Flags) (c : Char) : Option Flags :=
  if c = 'A' then some { fl with autoFill := true }
  else if c = 'T' then some { fl with truncate := true }
  else if c = 'N' then some { fl with noWrap := true }
  else if c = 'S' then some { fl with strict := true }
  else Option.none

/-- Helper for `stripFlags`: consumes recognised flag letters from the
head of the reversed core. -/
def stripFlagsRev (fl : Flags) : List Char → Flags × List Char
  | [] => (fl, [])
  | c :: rest =>
    match flagStep fl c with
    | some fl2 => stripFlagsRev fl2 rest
    | Option.none => (fl, c :: rest)

/-- Modelled from the spec: stage 5 of the missing column-spec parser
(section 4.2): trailing flag letters `A` (auto-fill), `T` (truncate),
`N` (no-wrap) and `S` (strict) are detected at the end of the inner core
and stripped before the remainder is delegated to the FormatSpec
parser. -/
def stripFlags (core : List Char) : Flags × List Char :=
  let p := stripFlagsRev {} core.reverse
  (p.1, p.2.reverse)

/-- Alignment characters of the format mini-language. -/
def isAlignChar (c : Char) : Bool :=
  c = '<' || c = '>' || c = '^' || c = '='

/-- Modelled from the spec: the missing `FormatSpec.parse` (section
4.1): an optional fill character (any character immediately followed by
one of `<>^=`), an optional alignment character, a width digit run, an
optional grouping character (`,` or `_`), an optional `.precision` and
an optional single-letter type code; unrecognised trailing characters
are ignored (lenient parsing) and `=` alignment degenerates to
no-fill/no-align. -/
def FormatSpec.parse (s : List Char) : FormatSpec :=
  let fa : Option Char × Option Char × List Char :=
    match s with
    | c1 :: c2 :: rest =>
      if isAlignChar c2 then (some c1, some c2, rest)
      else if isAlignChar c1 then (Option.none, some c1, c2 :: rest)
      else (Option.none, Option.none, s)
    | [c1] =>
      if isAlignChar c1 then (Option.none, some c1, [])
      else (Option.none, Option.none, s)
    | [] => (Option.none, Option.none, [])
  let fill := fa.1
  let align := fa.2.1
  let rest := fa.2.2
  let wdigits := rest.takeWhile isDigitChar
  let rest2 := rest.dropWhile isDigitChar
  let width := natOfDigits wdigits
  let gr : Option Char × List Char :=
    match rest2 with
    | c :: r => if c = ',' ∨ c = '_' then (some c, r) else (Option.none, rest2)
    | [] => (Option.none, [])
  let grouping := gr.1
  let rest3 := gr.2
  let pr : Option Nat × List Char :=
    match rest3 with
    | '.' :: r => (some (natOfDigits (r.takeWhile isDigitChar)), r.dropWhile isDigitChar)
    | _ => (Option.none, rest3)
  let precision := pr.1
  let rest4 := pr.2
  let typ : Option Char :=
    match rest4 with
    | c :: _ =>
      if c = 'd' ∨ c = 'f' ∨ c = '%' ∨ c = 'x' ∨ c = 'X' ∨ c = 'e' ∨ c = 'g' ∨ c = 's'
      then some c else Option.none
    | [] => Option.none
  if align = some '=' then
    { fill := Option.none, align := Option.none, width := width,
      grouping := grouping, precision := precision, typ := typ }
  else
    { fill := fill, align := align, width := width,
      grouping := grouping, precision := precision, typ := typ }

/-- Modelled from the spec: stage 6 of the missing column-spec parser
(section 4.2): the ColumnDefinition is assembled from the affixes, the
flag-stripped core and the parsed FormatSpec; the column width is the
parsed core width; in reserved-width mode (both affixes aligned) the
embedded FormatSpec is kept with its width reduced by the affix lengths
(clamped at 0), otherwise the FormatSpec is kept as parsed when it
carries information beyond plain width/align/fill. -/
def mkColDef (preAl : Option Char) (preTx : List Char) (core : List Char)
    (sufAl : Option Char) (sufTx : List Char) : ColDef :=
  let p := stripFlags core
  let fl := p.1
  let fs := FormatSpec.parse p.2
  let isReserved := preAl.isSome && sufAl.isSome
  let hasContent := fs.typ.isSome || fs.precision.isSome || fs.grouping.isSome
  { width := fs.width
    align := fs.align
    fill := fs.fill.getD ' '
    autoFill := fl.autoFill
    truncate := fl.truncate
    noWrap := fl.noWrap
    strict := fl.strict
    prefixText := String.mk preTx
    prefixAlign := preAl
    suffixText := String.mk sufTx
    suffixAlign := sufAl
    formatSpec :=
      if isReserved then
        some { fs with width := fs.width - preTx.length - sufTx.length }
      else if hasContent then some fs
      else Option.none }

/-- Modelled from the spec: the missing `ColumnDefinition.parse`
(section 4.2): split at the parentheses, extract the affix alignments
and texts, and assemble the descriptor; with no parentheses the whole
string is the inner core and there is no prefix or suffix. -/
def ColDef.parse (s : String) : Except FTError ColDef :=
  match splitParens s.data with
  | Except.error e => Except.error e
  | Except.ok Option.none => Except.ok (mkColDef Option.none [] s.data Option.none [])
  | Except.ok (some (bef, core, aft)) =>
    let pre := parseAffixPre bef
    let suf := parseAffix aft
    Except.ok (mkColDef pre.1 pre.2 core suf.1 suf.2)
where
  /-- The prefix alignment character stands immediately before the
  prefix text, i.e. at the head of the part before the parenthesis. -/
  parseAffixPre (part : List Char) : Option Char × List Char := parseAffix part

/-- Modelled from the spec: the missing `set_width(new_width)`
(section 4.2): rewrites `width` and, in reserved-width (aligned-affix)
mode, recomputes the inner FormatSpec width as
`new_width - len(prefix) - len(suffix)` clamped at a minimum of 0. -/
def ColDef.set_width (cd : ColDef) (n : Nat) : ColDef :=
  if cd.reserved then
    { cd with
      width := n
      formatSpec := cd.formatSpec.map
        (fun fs => { fs with width := n - cd.prefixText.length - cd.suffixText.length }) }
  else { cd with width := n }

/-- Modelled from the spec: row normalisation by the missing layout
engine (section 4.4): a row with fewer cells than columns is padded with
`none` for the missing cells, and a row with more cells than columns has
the excess cells ignored. -/
def normalizeRow (ncols : Nat) (row : List Value) : List Value :=
  (row ++ List.replicate (ncols - row.length) Value.vnone).take ncols

/-- A column participates in auto-fill distribution when its width is 0
or its auto-fill flag is set (section 4.4). -/
def isAutoCol (cd : ColDef) : Bool :=
  cd.width == 0 || cd.autoFill

/-- Number of auto-fill columns. -/
def countAuto (cds : List ColDef) : Nat :=
  (cds.filter isAutoCol).length

/-- Sum of the fixed (non-auto) column widths. -/
def fixedSum (cds : List ColDef) : Nat :=
  ((cds.filter (fun cd => !isAutoCol cd)).map ColDef.width).sum

/-- Modelled from the spec: the style interface consumed by the missing
table assembler (section 6): left border, separator and right border
character runs for data lines. -/
structure TableStyle where
  lb : List Char
  sep : List Char
  rb : List Char
deriving Repr

/-- Modelled from the spec: the default screen style used by
`get_table`, a box-drawn style with a two-character left and right
border and a three-character separator. -/
def defaultStyle : TableStyle :=
  { lb := ['|', ' '], sep := [' ', '|', ' '], rb := [' ', '|'] }

/-- Modelled from the spec: the separator/border overhead a style
contributes to a line of `n` columns (section 4.4). -/
def styleOverhead (st : TableStyle) (n : Nat) : Nat :=
  st.lb.length + st.rb.length + st.sep.length * (n - 1)

/-- Modelled from the spec: even distribution of the remaining table
width among the auto-fill columns (section 4.4): every auto column
receives the quotient and the leftover remainder is assigned to the last
auto-fill column; fixed columns keep their declared width. -/
def distribute (cds : List ColDef) (base rem : Nat) : List Nat :=
  match cds with
  | [] => []
  | cd :: rest =>
    (if isAutoCol cd then
      (if countAuto rest = 0 then base + rem else base)
     else cd.width) :: distribute rest base rem

/-- Natural content width of one column: the longest line of any cell's
plain string rendering in that column (section 4.3). -/
def naturalWidth (rows : List (List Value)) (idx : Nat) : Nat :=
  (rows.map (fun r => (valueStr (r.getD idx Value.vnone)).data.length)).foldr max 0

/-- Modelled from the spec: width resolution by the missing layout
engine (section 4.4): with a target table width the remaining space
(after the fixed widths and the style overhead) is distributed among the
auto columns; with no target width each auto column falls back to its
natural content width. -/
def resolveWidths (cds : List ColDef) (rows : List (List Value))
    (hdr : Option (List String)) (tw : Option Nat) (st : TableStyle) : List Nat :=
  match tw with
  | some w =>
    let remaining := w - fixedSum cds - styleOverhead st cds.length
    let k := countAuto cds
    distribute cds (remaining / k) (remaining % k)
  | Option.none =>
    let allRows := (match hdr with
      | some hs => [hs.map Value.vstr]
      | Option.none => []) ++ rows
    (List.range cds.length).zipWith
      (fun i cd => if isAutoCol cd then naturalWidth allRows i else cd.width)
      cds

/-- Splitting a text at its embedded newline characters: embedded
newlines always force a line break (section 4.4). -/
def splitOnNL (t : List Char) : List (List Char) :=
  match t with
  | [] => [[]]
  | c :: rest =>
    let tail := splitOnNL rest
    if c = '\n' then [] :: tail
    else
      match tail with
      | l :: ls => (c :: l) :: ls
      | [] => [[c]]

/-- Position after the last space among the first `w` characters, when
one exists: the word-boundary break point. -/
def lastSpaceIn (w : Nat) (t : List Char) : Option Nat :=
  let window := t.take w
  let k := (window.reverse.takeWhile (fun c => c ≠ ' ')).length
  if k = window.length then Option.none else some (window.length - k)

/-- Fuel-indexed wrapping loop: every recursive step consumes at least
one character, so fuel equal to the text length suffices and the
fuel-exhausted fallback is unreachable with a nonempty remainder. -/
def wrapGo (w : Nat) : Nat → List Char → List (List Char)
  | 0, t => [t]
  | fuel + 1, t =>
    if w = 0 ∨ t.length ≤ w then [t]
    else
      match lastSpaceIn w t with
      | some p =>
        if p = 0 then (t.take w) :: wrapGo w fuel (t.drop w)
        else (t.take (p - 1)) :: wrapGo w fuel (t.drop p)
      | Option.none => (t.take w) :: wrapGo w fuel (t.drop w)

/-- Modelled from the spec: width-triggered word-boundary wrapping by
the missing layout engine (section 4.4): split the text into lines no
wider than the width, breaking at whitespace when possible, else
hard-breaking inside an overlong token. -/
def wrapChars (w : Nat) (t : List Char) : List (List Char) :=
  wrapGo w t.length t

/-- Error-propagating map over a list, used for cell and row rendering
(the engine stops at the first surfaced formatting error). -/
def mapME {α β : Type} (f : α → Except FTError β) : List α → Except FTError (List β)
  | [] => Except.ok []
  | x :: xs =>
    match f x with
    | Except.error e => Except.error e
    | Except.ok y =>
      match mapME f xs with
      | Except.error e => Except.error e
      | Except.ok ys => Except.ok (y :: ys)

/-- Modelled from the spec: the multi-line cell renderer of the missing
layout engine (section 4.4): the pre-padding text is split at embedded
newlines; unless truncation or the no-wrap flag applies, each segment is
word-boundary wrapped to the column width; every resulting line is then
padded or truncated to the width. -/
def renderCellLinesE (cd : ColDef) (globalNone : String) (row : List Value) (idx : Nat) (v : Value) : Except FTError (List (List Char)) :=
  match cd.rawTextE globalNone row idx v with
  | Except.error e => Except.error e
  | Except.ok t =>
    let segs := splitOnNL t
    let segs2 :=
      if cd.truncate || cd.noWrap then segs
      else segs.flatMap (wrapChars cd.width)
    Except.ok (segs2.map cd.padOrTruncate)

/-- A blank (space-filled) line of the given width, used to pad the
shorter columns of a multi-line row (section 4.4). -/
def blankLine (w : Nat) : List Char :=
  List.replicate w ' '

/-- Joining the per-column segments of one physical line with the
style's separators (section 4.4). -/
def joinCells (st : TableStyle) (cells : List (List Char)) : List Char :=
  st.lb ++ joinSep cells ++ st.rb
where
  joinSep : List (List Char) → List Char
    | [] => []
    | [c] => c
    | c :: cs => c ++ st.sep ++ joinSep cs

/-- Modelled from the spec: the row renderer of the missing layout
engine (section 4.4): each cell is rendered into its lines, the row's
line count is the maximum across its columns (at least one), shorter
columns are padded with blank lines, and each physical line is assembled
by joining the per-column segments with the style's separators. -/
def renderRowLinesE (st : TableStyle) (cds : List ColDef) (ws : List Nat)
    (globalNone : String) (row : List Value) : Except FTError (List (List Char)) :=
  let nrow := normalizeRow cds.length row
  let cells := (cds.zip ws).zip nrow.enum
  match mapME
      (fun c => renderCellLinesE (c.1.1.set_width c.1.2) globalNone nrow c.2.1 c.2.2)
      cells with
  | Except.error e => Except.error e
  | Except.ok cellLines =>
    let height := max 1 ((cellLines.map List.length).foldr max 0)
    let padded := (cellLines.zip ws).map
      (fun c => c.1 ++ List.replicate (height - c.1.length) (blankLine c.2))
    Except.ok ((List.range height).map
      (fun i => joinCells st (padded.map (fun ls => ls.getD i []))))

/-- Horizontal border line of the default box style for the given
resolved column widths. -/
def borderLine (ws : List Nat) : List Char :=
  '+' :: (ws.flatMap (fun w => List.replicate (w + 2) '-' ++ ['+']))

/-- Joining physical lines with newline characters into the final output
character sequence. -/
def joinNL : List (List Char) → List Char
  | [] => []
  | [l] => l
  | l :: ls => l ++ '\n' :: joinNL ls

/-- Literal placeholder shown for an empty dataset (section 7). -/
def noDataMsg : String :=
  "No data to display"

/-- Default (auto/empty) column definition used to pad a too-short
definition list (section 9, open question: missing entries are padded
with an auto/empty ColumnDefinition). -/
def defaultColDef : ColDef :=
  {}

/-- Modelled from the spec: the table's column count (section 4.4):
the widest row or the header, whichever is larger — columns define the
contract, and definitions are padded or truncated to match. -/
def tableNcols (rows : List (List Value)) (headerRow : Option (List String)) : Nat :=
  max ((rows.map List.length).foldr max 0)
    (match headerRow with | some hs => hs.length | Option.none => 0)

/-- Modelled from the spec: mismatched definition counts are not
errors — a definition list is padded with default (auto/empty)
definitions and truncated to the column count (sections 4.4 and 7). -/
def padTruncDefs (n : Nat) (defs : List ColDef) : List ColDef :=
  (defs ++ List.replicate (n - defs.length) defaultColDef).take n

/-- Modelled from the spec: the body definition list actually used by
the table (section 4.4): the supplied `col_defs` padded with defaults
and truncated to the column count. -/
def tableCds (rows : List (List Value)) (headerRow : Option (List String))
    (colDefs : List ColDef) : List ColDef :=
  padTruncDefs (tableNcols rows headerRow) colDefs

/-- Modelled from the spec: the header definition list actually used by
the table (sections 3 and 4.4): the header's own `header_defs`,
distinct from the body's `col_defs`, padded with defaults and truncated
to the column count. -/
def tableHdrCds (rows : List (List Value)) (headerRow : Option (List String))
    (headerDefs : List ColDef) : List ColDef :=
  padTruncDefs (tableNcols rows headerRow) headerDefs

/-- Resolved widths of the table's columns. -/
def tableWs (rows : List (List Value)) (headerRow : Option (List String))
    (colDefs : List ColDef) (tableWidth : Option Nat) : List Nat :=
  resolveWidths (tableCds rows headerRow colDefs) rows headerRow tableWidth defaultStyle

/-- Modelled from the spec: the missing `get_table` orchestration
(sections 4.4 and 7): the body `col_defs` and the header's own
`header_defs` are each padded with defaults and truncated to the column
count; widths are resolved against the optional target table width; the
header (when present, rendered with the header definitions at the
body's resolved widths) and every data row are rendered in order
between the style's border lines; an empty dataset renders the literal
"No data to display" placeholder instead of a body. -/
def get_table (rows : List (List Value)) (headerRow : Option (List String))
    (colDefs : List ColDef) (headerDefs : List ColDef)
    (tableWidth : Option Nat) (globalNone : String) : Except FTError String :=
  let st := defaultStyle
  let cds := tableCds rows headerRow colDefs
  let ws := tableWs rows headerRow colDefs tableWidth
  let hdrE : Except FTError (List (List Char)) :=
    match headerRow with
    | Option.none => Except.ok []
    | some hs =>
      match renderRowLinesE st (tableHdrCds rows headerRow headerDefs) ws
          globalNone (hs.map Value.vstr) with
      | Except.error e => Except.error e
      | Except.ok ls => Except.ok (ls ++ [borderLine ws])
  match hdrE with
  | Except.error e => Except.error e
  | Except.ok hdrLines =>
    if rows.isEmpty then
      Except.ok (String.mk (joinNL ([borderLine ws] ++ hdrLines ++ [noDataMsg.data] ++ [borderLine ws])))
    else
      match mapME (renderRowLinesE st cds ws globalNone) rows with
      | Except.error e => Except.error e
      | Except.ok blocks =>
        Except.ok (String.mk (joinNL
          ([borderLine ws] ++ hdrLines ++ blocks.flatten ++ [borderLine ws])))

/-! ### Length facts about the padding and truncation stages -/

theorem fillChars_length (c : Char) (n : Nat) : (fillChars c n).length = n := by
  simp [fillChars]

theorem alignPad_length (a : Option Char) (f : Char) (w : Nat) (t : List Char) :
    (alignPad a f w t).length = max w t.length := by
  unfold alignPad
  split_ifs <;> simp [fillChars] <;> omega

theorem padOrTruncate_length_of_fits (cd : ColDef) (t : List Char)
    (h : t.length ≤ cd.width) : (cd.padOrTruncate t).length = cd.width := by
  unfold ColDef.padOrTruncate
  rw [if_neg (by omega)]
  rw [alignPad_length]
  omega

theorem padOrTruncate_of_truncating (cd : ColDef) (t : List Char)
    (htr : cd.truncate = true) (h : cd.width < t.length) :
    cd.padOrTruncate t = t.take (cd.width - 1) ++ ['…'] := by
  unfold ColDef.padOrTruncate
  rw [if_pos ⟨htr, h⟩]

theorem padOrTruncate_length_of_truncate (cd : ColDef) (t : List Char)
    (hw : 1 ≤ cd.width) (htr : cd.truncate = true) (h : cd.width < t.length) :
    (cd.padOrTruncate t).length = cd.width := by
  rw [padOrTruncate_of_truncating cd t htr h]
  simp [List.length_take]
  omega

theorem padOrTruncate_of_overflow (cd : ColDef) (t : List Char)
    (htr : cd.truncate = false) (h : cd.width < t.length) :
    cd.padOrTruncate t = t := by
  unfold ColDef.padOrTruncate
  rw [if_neg (by simp [htr])]
  unfold alignPad
  rw [if_pos (by omega)]

theorem formatCellE_of_rawText (cd : ColDef) (g : String) (row : List Value)
    (idx : Nat) (v : Value) (t : List Char)
    (h : cd.rawTextE g row idx v = Except.ok t) :
    cd.formatCellE g row idx v = Except.ok (cd.padOrTruncate t) := by
  unfold ColDef.formatCellE
  rw [h]

/-- C1. For a column of width `w ≥ 1`, the formatted cell has length
exactly `w` whenever the truncate flag is set or the pre-padding content
fits within `w`; when truncation is off and the content (which may
include an unaligned affix) overflows, the text is returned as is, so
the rendered length exceeds `w` by exactly the content's own overflow. -/
theorem c1_format_length (cd : ColDef) (g : String) (row : List Value)
    (idx : Nat) (v : Value) (t : List Char)
    (hw : 1 ≤ cd.width) (hraw : cd.rawTextE g row idx v = Except.ok t) :
    ((cd.truncate = true ∨ t.length ≤ cd.width) →
      ∃ s, cd.formatCellE g row idx v = Except.ok s ∧ s.length = cd.width)
    ∧ (cd.truncate = false → cd.width < t.length →
      cd.formatCellE g row idx v = Except.ok t) := by
  constructor
  · intro hfit
    refine ⟨cd.padOrTruncate t, formatCellE_of_rawText cd g row idx v t hraw, ?_⟩
    rcases Nat.lt_or_ge cd.width t.length with hlt | hge
    · rcases hfit with htr | hle
      · exact padOrTruncate_length_of_truncate cd t hw htr hlt
      · omega
    · exact padOrTruncate_length_of_fits cd t hge
  · intro htr hover
    rw [formatCellE_of_rawText cd g row idx v t hraw,
      padOrTruncate_of_overflow cd t htr hover]

/-- Witness for C1 at a concrete column and value: width 10, left
aligned, value `"test"` fits, and the rendered cell has length 10. -/
theorem c1_format_length_witness :
    ∃ s, ColDef.formatCellE { width := 10, align := some '<' } "" [] 0
      (Value.vstr "test") = Except.ok s ∧ s.length = 10 :=
  (c1_format_length { width := 10, align := some '<' } "" [] 0
    (Value.vstr "test") (String.data "test") (by decide) rfl).1
    (Or.inr (by decide))

/-- C2 counterexample. A column definition with width 0 and the
truncate flag set is a ColumnDefinition with truncate set, and the text
`"ab"` is longer than its width, yet `format` returns the one-character
ellipsis string, whose length is not the column's width: the claim's
"length exactly w" is impossible at `w = 0` since the result must also
end with the ellipsis character. -/
theorem c2_counterexample :
    ∃ s, ColDef.format { truncate := true } (Value.vstr "ab") = Except.ok s ∧
      s.length ≠ ColDef.width { truncate := true } :=
  ⟨['…'], rfl, by decide⟩

/-- C2 (amended with `w ≥ 1`). For a column of width `w ≥ 1` with the
truncate flag set and a pre-padding text longer than `w`, `format` cuts
the text to `w - 1` visible characters, appends a single ellipsis
character, and the result has length exactly `w` and ends with the
ellipsis. -/
theorem c2_truncate_ellipsis (cd : ColDef) (g : String) (row : List Value)
    (idx : Nat) (v : Value) (t : List Char)
    (hw : 1 ≤ cd.width) (htr : cd.truncate = true)
    (hraw : cd.rawTextE g row idx v = Except.ok t) (hover : cd.width < t.length) :
    cd.formatCellE g row idx v = Except.ok (t.take (cd.width - 1) ++ ['…'])
    ∧ (t.take (cd.width - 1) ++ ['…']).length = cd.width
    ∧ (t.take (cd.width - 1) ++ ['…']).getLast? = some '…' := by
  refine ⟨?_, ?_, ?_⟩
  · rw [formatCellE_of_rawText cd g row idx v t hraw,
      padOrTruncate_of_truncating cd t htr hover]
  · simp [List.length_take]
    omega
  · simp

/-- Witness for the amended C2: width 5 with truncation, text
`"LongText"` of length 8: the rendered cell is `"Long…"`. -/
theorem c2_truncate_ellipsis_witness :
    ColDef.formatCellE { width := 5, truncate := true } "" [] 0
      (Value.vstr "LongText")
      = Except.ok ((String.data "LongText").take 4 ++ ['…'])
    ∧ ((String.data "LongText").take 4 ++ ['…']).length = 5
    ∧ ((String.data "LongText").take 4 ++ ['…']).getLast? = some '…' :=
  c2_truncate_ellipsis { width := 5, truncate := true } "" [] 0
    (Value.vstr "LongText") (String.data "LongText")
    (by decide) rfl rfl (by decide)

/-! ### Reserved-width mode invariants -/

theorem mkColDef_reserved_invariant (preAl : Option Char) (preTx : List Char)
    (core : List Char) (sufAl : Option Char) (sufTx : List Char)
    (hres : (mkColDef preAl preTx core sufAl sufTx).reserved = true) :
    ∃ fs, (mkColDef preAl preTx core sufAl sufTx).formatSpec = some fs
      ∧ fs.width = (mkColDef preAl preTx core sufAl sufTx).width
        - (mkColDef preAl preTx core sufAl sufTx).prefixText.length
        - (mkColDef preAl preTx core sufAl sufTx).suffixText.length := by
  unfold mkColDef at hres ⊢
  simp only [ColDef.reserved] at hres
  simp only
  rw [if_pos hres]
  exact ⟨_, rfl, by simp [String.length]⟩

theorem parse_reserved_invariant (s : String) (cd : ColDef)
    (hp : ColDef.parse s = Except.ok cd) (hres : cd.reserved = true) :
    ∃ fs, cd.formatSpec = some fs
      ∧ fs.width = cd.width - cd.prefixText.length - cd.suffixText.length := by
  unfold ColDef.parse at hp
  rcases hsp : splitParens s.data with e | o
  · rw [hsp] at hp
    exact absurd hp (by simp)
  · rw [hsp] at hp
    rcases o with _ | ⟨bef, core, aft⟩
    · simp only [Except.ok.injEq] at hp
      subst hp
      exact mkColDef_reserved_invariant _ _ _ _ _ hres
    · simp only [Except.ok.injEq] at hp
      subst hp
      exact mkColDef_reserved_invariant _ _ _ _ _ hres

theorem set_width_reserved (cd : ColDef) (n : Nat) (fs : FormatSpec)
    (hres : cd.reserved = true) (hfs : cd.formatSpec = some fs) :
    (cd.set_width n).width = n
    ∧ ∃ fs2, (cd.set_width n).formatSpec = some fs2
      ∧ fs2.width = n - cd.prefixText.length - cd.suffixText.length := by
  unfold ColDef.set_width
  rw [if_pos hres]
  exact ⟨rfl, { fs with width := n - cd.prefixText.length - cd.suffixText.length },
    by rw [hfs]; rfl, rfl⟩

/-- C3. In reserved-width (both-affixes-aligned) mode the embedded
FormatSpec width equals the total width minus the affix lengths, clamped
at 0 by the natural-number subtraction: concretely,
`ColDef.parse "<$(20)>USD"` yields width 20 with inner FormatSpec width
16; the invariant holds after parsing any spec string; and `set_width`
re-establishes it for the new width. -/
theorem c3_reserved_width_invariant :
    (ColDef.parse "<$(20)>USD").map
      (fun cd => (cd.width, cd.formatSpec.map FormatSpec.width))
      = Except.ok (20, some 16)
    ∧ (∀ s cd, ColDef.parse s = Except.ok cd → cd.reserved = true →
        ∃ fs, cd.formatSpec = some fs
          ∧ fs.width = cd.width - cd.prefixText.length - cd.suffixText.length)
    ∧ (∀ (cd : ColDef) (n : Nat) (fs : FormatSpec),
        cd.reserved = true → cd.formatSpec = some fs →
        (cd.set_width n).width = n
        ∧ ∃ fs2, (cd.set_width n).formatSpec = some fs2
          ∧ fs2.width = n - cd.prefixText.length - cd.suffixText.length) :=
  ⟨rfl, parse_reserved_invariant, fun cd n fs => set_width_reserved cd n fs⟩

/-- Witness for C3 at concrete inputs: the parsed `"<$(20)>USD"` column
widened to 30 keeps the invariant, with inner FormatSpec width 26. -/
theorem c3_reserved_width_invariant_witness :
    (ColDef.set_width
        { width := 20, prefixText := "$", prefixAlign := some '<',
          suffixText := "USD", suffixAlign := some '>',
          formatSpec := some { width := 16 } } 30).width = 30
    ∧ ∃ fs2, (ColDef.set_width
        { width := 20, prefixText := "$", prefixAlign := some '<',
          suffixText := "USD", suffixAlign := some '>',
          formatSpec := some { width := 16 } } 30).formatSpec = some fs2
      ∧ fs2.width = 26 :=
  let h := c3_reserved_width_invariant.2.2
    { width := 20, prefixText := "$", prefixAlign := some '<',
      suffixText := "USD", suffixAlign := some '>',
      formatSpec := some { width := 16 } } 30 { width := 16 } rfl rfl
  ⟨h.1, h.2.imp (fun _ hfs => ⟨hfs.1, hfs.2⟩)⟩

/-! ### Callback failure recovery -/

theorem preprocess_of_error (cd : ColDef) (f : PreFn) (v : Value)
    (row : List Value) (idx : Nat) (e : String)
    (hf : cd.preprocessor = some f) (he : f v row idx = Except.error e) :
    cd.preprocess v row idx = v := by
  simp [ColDef.preprocess, hf, he]

theorem postprocess_of_error (cd : ColDef) (f : PostFn) (orig : Value)
    (t : List Char) (row : List Value) (idx : Nat) (e : String)
    (hf : cd.postprocessor = some f) (he : f orig t row idx = Except.error e) :
    cd.postprocess orig t row idx = t := by
  simp [ColDef.postprocess, hf, he]

/-- C4. Exceptions raised by caller-supplied processing hooks are caught
and never propagated: a failing preprocessor leaves the original value
in place, a failing postprocessor leaves the pre-postprocessor text in
place, and a cell rendered with always-failing hooks formats exactly as
if the hooks were absent. -/
theorem c4_callback_errors_recovered :
    (∀ (cd : ColDef) (f : PreFn) (v : Value) (row : List Value) (idx : Nat)
      (e : String), cd.preprocessor = some f → f v row idx = Except.error e →
      cd.preprocess v row idx = v)
    ∧ (∀ (cd : ColDef) (f : PostFn) (orig : Value) (t : List Char)
      (row : List Value) (idx : Nat) (e : String),
      cd.postprocessor = some f → f orig t row idx = Except.error e →
      cd.postprocess orig t row idx = t)
    ∧ (∀ (cd : ColDef) (f : PreFn) (h : PostFn) (g : String) (row : List Value)
      (idx : Nat) (v : Value),
      (∀ a b c, f a b c = Except.error "fail") →
      (∀ a b c d, h a b c d = Except.error "fail") →
      ColDef.formatCellE { cd with preprocessor := some f, postprocessor := some h }
          g row idx v
        = ColDef.formatCellE { cd with preprocessor := Option.none, postprocessor := Option.none } g row idx v) := by
  refine ⟨preprocess_of_error, postprocess_of_error, ?_⟩
  intro cd f h g row idx v hf hh
  unfold ColDef.formatCellE ColDef.rawTextE ColDef.preprocess ColDef.postprocess
  simp only [hf, hh, ColDef.padOrTruncate, alignPad]

/-- Witness for C4: a preprocessor and a postprocessor that always raise
leave the value `"test"` and the text `"formatted_text"` unchanged. -/
theorem c4_callback_errors_recovered_witness :
    ColDef.preprocess
        { width := 10, preprocessor := some (fun _ _ _ => Except.error "boom") }
        (Value.vstr "test") [Value.vstr "test"] 0 = Value.vstr "test"
    ∧ ColDef.postprocess
        { width := 10, postprocessor := some (fun _ _ _ _ => Except.error "boom") }
        (Value.vstr "value") (String.data "formatted_text")
        [Value.vstr "value"] 0 = String.data "formatted_text" :=
  ⟨c4_callback_errors_recovered.1
      { width := 10, preprocessor := some (fun _ _ _ => Except.error "boom") }
      (fun _ _ _ => Except.error "boom") (Value.vstr "test")
      [Value.vstr "test"] 0 "boom" rfl rfl,
    c4_callback_errors_recovered.2.1
      { width := 10, postprocessor := some (fun _ _ _ _ => Except.error "boom") }
      (fun _ _ _ _ => Except.error "boom") (Value.vstr "value")
      (String.data "formatted_text") [Value.vstr "value"] 0 "boom" rfl rfl⟩

/-! ### Numeric coercion failure policy -/

/-- C5. When a column's FormatSpec requests a numeric type and the value
cannot be coerced to a number, formatting does not fail in non-strict
mode — it falls back to plain `str(value)` (affixed and padded as
usual) — and only a column that explicitly requests strict behavior
surfaces the failure as a formatting error. -/
theorem c5_numeric_failure_policy (cd : ColDef) (g : String) (row : List Value)
    (idx : Nat) (v : Value) (fs : FormatSpec)
    (hpre : cd.preprocessor = Option.none) (hpost : cd.postprocessor = Option.none)
    (hfs : cd.formatSpec = some fs) (hnum : fs.isNumeric = true)
    (hcoerce : toNumeric v = Option.none) (hv : v ≠ Value.vnone) :
    (cd.strict = false →
      cd.formatCellE g row idx v
        = Except.ok (cd.padOrTruncate
            (cd.prefixText.data ++ (valueStr v).data ++ cd.suffixText.data)))
    ∧ (cd.strict = true →
      cd.formatCellE g row idx v = Except.error FTError.formatFailure) := by
  have hraw : ∀ (b : Bool), cd.strict = b →
      cd.rawTextE g row idx v
        = (if b then Except.error FTError.formatFailure
           else Except.ok (cd.prefixText.data ++ (valueStr v).data ++ cd.suffixText.data)) := by
    intro b hb
    unfold ColDef.rawTextE ColDef.preprocess ColDef.postprocess
    rw [hpre]
    simp only [hfs, hnum, hcoerce, hb, if_pos, if_neg hv]
    cases b
    · simp [hpost]
    · simp
  constructor
  · intro hb
    have h1 := hraw false hb
    simp only [Bool.false_eq_true, if_false] at h1
    unfold ColDef.formatCellE
    rw [h1]
  · intro hb
    have h1 := hraw true hb
    simp only [if_true] at h1
    unfold ColDef.formatCellE
    rw [h1]

/-- Witness for C5: a right-aligned non-strict numeric column of width
12 formats the non-numeric string `"not a number"` as itself, and the
same column with the strict flag fails. -/
theorem c5_numeric_failure_policy_witness :
    ColDef.formatCellE
        { width := 12, formatSpec := some { width := 12, typ := some 'f' } }
        "" [] 0 (Value.vstr "not a number")
      = Except.ok (ColDef.padOrTruncate
          { width := 12, formatSpec := some { width := 12, typ := some 'f' } }
          (String.data "not a number"))
    ∧ ColDef.formatCellE
        { width := 12, formatSpec := some { width := 12, typ := some 'f' }, strict := true }
        "" [] 0 (Value.vstr "not a number")
      = Except.error FTError.formatFailure :=
  ⟨(c5_numeric_failure_policy
      { width := 12, formatSpec := some { width := 12, typ := some 'f' } }
      "" [] 0 (Value.vstr "not a number") { width := 12, typ := some 'f' }
      rfl rfl rfl rfl rfl (by decide)).1 rfl,
    (c5_numeric_failure_policy
      { width := 12, formatSpec := some { width := 12, typ := some 'f' }, strict := true }
      "" [] 0 (Value.vstr "not a number") { width := 12, typ := some 'f' }
      rfl rfl rfl rfl rfl (by decide)).2 rfl⟩

/-! ### None-text precedence -/

/-- C6. A column with a non-empty per-column none-text renders that text
for a `none` cell regardless of the global none-text passed to the table
call — the rendered cell is literally independent of the global
argument — while a column whose none-text is empty falls back to the
global none-text. -/
theorem c6_none_text_precedence (cd : ColDef) (g1 g2 : String)
    (row : List Value) (idx : Nat)
    (hpre : cd.preprocessor = Option.none) (hpost : cd.postprocessor = Option.none) :
    (cd.noneText ≠ "" →
      cd.formatCellE g1 row idx Value.vnone
          = Except.ok (cd.padOrTruncate cd.noneText.data)
      ∧ cd.formatCellE g1 row idx Value.vnone
          = cd.formatCellE g2 row idx Value.vnone)
    ∧ (cd.noneText = "" →
      cd.formatCellE g1 row idx Value.vnone
        = Except.ok (cd.padOrTruncate g1.data)) := by
  have hcell : ∀ (g : String), cd.formatCellE g row idx Value.vnone
      = Except.ok (cd.padOrTruncate
          (if cd.noneText = "" then g.data else cd.noneText.data)) := by
    intro g
    unfold ColDef.formatCellE ColDef.rawTextE ColDef.preprocess ColDef.postprocess
    rw [hpre]
    simp [hpost]
  constructor
  · intro hne
    constructor
    · rw [hcell g1, if_neg hne]
    · rw [hcell g1, hcell g2, if_neg hne, if_neg hne]
  · intro he
    rw [hcell g1, if_pos he]

/-- Witness for C6: a width-10 column whose none-text is `"N/A"`
renders `"N/A"` (padded) for a `none` cell even when the caller's global
none-text is `"(empty)"`, and the same column with empty none-text
renders the global text. -/
theorem c6_none_text_precedence_witness :
    ColDef.formatCellE { width := 10, noneText := "N/A" } "(empty)" [] 0 Value.vnone
        = Except.ok (ColDef.padOrTruncate { width := 10, noneText := "N/A" }
            (String.data "N/A"))
    ∧ ColDef.formatCellE { width := 10, noneText := "N/A" } "(empty)" [] 0 Value.vnone
        = ColDef.formatCellE { width := 10, noneText := "N/A" } "GLOBAL" [] 0 Value.vnone
    ∧ ColDef.formatCellE { width := 10 } "(empty)" [] 0 Value.vnone
        = Except.ok (ColDef.padOrTruncate { width := 10 } (String.data "(empty)")) :=
  ⟨((c6_none_text_precedence { width := 10, noneText := "N/A" } "(empty)" "GLOBAL"
      [] 0 rfl rfl).1 (by decide)).1,
    ((c6_none_text_precedence { width := 10, noneText := "N/A" } "(empty)" "GLOBAL"
      [] 0 rfl rfl).1 (by decide)).2,
    (c6_none_text_precedence { width := 10 } "(empty)" "GLOBAL"
      [] 0 rfl rfl).2 rfl⟩

/-! ### Totality of rendering for non-strict definitions -/

theorem rawTextE_ok (cd : ColDef) (g : String) (row : List Value) (idx : Nat)
    (v : Value) (hstrict : cd.strict = false) :
    ∃ t, cd.rawTextE g row idx v = Except.ok t := by
  unfold ColDef.rawTextE
  by_cases hv : cd.preprocess v row idx = Value.vnone
  · rw [if_pos hv]
    exact ⟨_, rfl⟩
  · rw [if_neg hv]
    rcases hfs : cd.formatSpec with _ | fs
    · exact ⟨_, rfl⟩
    · simp only
      by_cases hn : fs.isNumeric = true
      · rw [if_pos hn]
        rcases toNumeric (cd.preprocess v row idx) with _ | n
        · simp only [hstrict]
          exact ⟨_, rfl⟩
        · exact ⟨_, rfl⟩
      · rw [if_neg hn]
        exact ⟨_, rfl⟩

theorem set_width_strict (cd : ColDef) (n : Nat) :
    (cd.set_width n).strict = cd.strict := by
  unfold ColDef.set_width
  split <;> rfl

theorem splitOnNL_ne_nil (t : List Char) : splitOnNL t ≠ [] := by
  induction t with
  | nil => simp [splitOnNL]
  | cons c rest ih =>
    unfold splitOnNL
    split <;> simp_all
    rcases splitOnNL rest with _ | ⟨l, ls⟩
    · simp
    · simp

theorem wrapGo_ne_nil (w fuel : Nat) (t : List Char) : wrapGo w fuel t ≠ [] := by
  rcases fuel with _ | fuel2
  · simp [wrapGo]
  · unfold wrapGo
    split
    · simp
    · split
      · split <;> simp
      · simp

theorem wrapChars_ne_nil (w : Nat) (t : List Char) : wrapChars w t ≠ [] :=
  wrapGo_ne_nil w t.length t

theorem flatMap_ne_nil {α β : Type} (l : List α) (f : α → List β)
    (hl : l ≠ []) (hf : ∀ x ∈ l, f x ≠ []) : l.flatMap f ≠ [] := by
  rcases l with _ | ⟨x, xs⟩
  · exact absurd rfl hl
  · have hx : f x ≠ [] := hf x (List.mem_cons_self x xs)
    simp only [List.flatMap_cons]
    intro hcontra
    exact hx (List.append_eq_nil.mp hcontra).1

theorem renderCellLinesE_ok (cd : ColDef) (g : String) (row : List Value)
    (idx : Nat) (v : Value) (hstrict : cd.strict = false) :
    ∃ ls, renderCellLinesE cd g row idx v = Except.ok ls ∧ ls ≠ [] := by
  obtain ⟨t, ht⟩ := rawTextE_ok cd g row idx v hstrict
  unfold renderCellLinesE
  rw [ht]
  refine ⟨_, rfl, ?_⟩
  intro hcontra
  rw [List.map_eq_nil_iff] at hcontra
  by_cases hflag : (cd.truncate || cd.noWrap) = true
  · rw [if_pos hflag] at hcontra
    exact splitOnNL_ne_nil t hcontra
  · rw [if_neg hflag] at hcontra
    exact flatMap_ne_nil _ _ (splitOnNL_ne_nil t)
      (fun x _ => wrapChars_ne_nil cd.width x) hcontra

theorem mapME_ok {α β : Type} (f : α → Except FTError β) (l : List α)
    (h : ∀ x ∈ l, ∃ y, f x = Except.ok y) :
    ∃ ys, mapME f l = Except.ok ys ∧ ys.length = l.length := by
  induction l with
  | nil => exact ⟨[], rfl, rfl⟩
  | cons x xs ih =>
    obtain ⟨y, hy⟩ := h x (List.mem_cons_self x xs)
    obtain ⟨ys, hys, hlen⟩ := ih (fun a ha => h a (List.mem_cons_of_mem x ha))
    refine ⟨y :: ys, ?_, by simp [hlen]⟩
    unfold mapME
    rw [hy, hys]

theorem renderRowLinesE_ok (st : TableStyle) (cds : List ColDef) (ws : List Nat)
    (g : String) (row : List Value) (hstrict : ∀ cd ∈ cds, cd.strict = false) :
    ∃ ls, renderRowLinesE st cds ws g row = Except.ok ls ∧ ls ≠ [] := by
  unfold renderRowLinesE
  have hcells : ∀ c ∈ (cds.zip ws).zip (normalizeRow cds.length row).enum,
      ∃ y, renderCellLinesE (c.1.1.set_width c.1.2) g (normalizeRow cds.length row)
        c.2.1 c.2.2 = Except.ok y := by
    intro c hc
    have hc1 : c.1 ∈ cds.zip ws := (List.of_mem_zip hc).1
    have hcd : c.1.1 ∈ cds := (List.of_mem_zip hc1).1
    obtain ⟨y, hy, _⟩ := renderCellLinesE_ok (c.1.1.set_width c.1.2) g
      (normalizeRow cds.length row) c.2.1 c.2.2
      (by rw [set_width_strict]; exact hstrict c.1.1 hcd)
    exact ⟨y, hy⟩
  obtain ⟨ys, hys, _⟩ := mapME_ok _ _ hcells
  simp only [hys]
  refine ⟨_, rfl, ?_⟩
  intro hcontra
  rw [List.map_eq_nil_iff, List.range_eq_nil] at hcontra
  omega

theorem padTruncDefs_strict (n : Nat) (defs : List ColDef)
    (hstrict : ∀ cd ∈ defs, cd.strict = false) :
    ∀ cd ∈ padTruncDefs n defs, cd.strict = false := by
  intro cd hcd
  unfold padTruncDefs at hcd
  have hcd2 := List.mem_of_mem_take hcd
  rcases List.mem_append.mp hcd2 with h | h
  · exact hstrict cd h
  · rw [List.eq_of_mem_replicate h]
    rfl

theorem tableCds_strict (rows : List (List Value)) (hdr : Option (List String))
    (colDefs : List ColDef) (hstrict : ∀ cd ∈ colDefs, cd.strict = false) :
    ∀ cd ∈ tableCds rows hdr colDefs, cd.strict = false :=
  padTruncDefs_strict (tableNcols rows hdr) colDefs hstrict

theorem get_table_ok (rows : List (List Value)) (hdr : Option (List String))
    (colDefs : List ColDef) (hdefs : List ColDef) (tw : Option Nat) (g : String)
    (hstrict : ∀ cd ∈ colDefs, cd.strict = false)
    (hstrict2 : ∀ cd ∈ hdefs, cd.strict = false) :
    ∃ out, get_table rows hdr colDefs hdefs tw g = Except.ok out := by
  have hcds := tableCds_strict rows hdr colDefs hstrict
  unfold get_table
  rcases hdr with _ | hs
  · simp only
    by_cases hrows : rows.isEmpty
    · rw [if_pos hrows]
      exact ⟨_, rfl⟩
    · rw [if_neg hrows]
      obtain ⟨blocks, hb, _⟩ := mapME_ok
        (renderRowLinesE defaultStyle (tableCds rows Option.none colDefs)
          (tableWs rows Option.none colDefs tw) g) rows
        (fun r _ => (renderRowLinesE_ok _ _ _ _ r hcds).imp (fun _ h => h.1))
      rw [hb]
      exact ⟨_, rfl⟩
  · simp only
    obtain ⟨hls, hh, _⟩ := renderRowLinesE_ok defaultStyle
      (tableHdrCds rows (some hs) hdefs) (tableWs rows (some hs) colDefs tw) g
      (hs.map Value.vstr)
      (padTruncDefs_strict (tableNcols rows (some hs)) hdefs hstrict2)
    simp only [hh]
    by_cases hrows : rows.isEmpty
    · rw [if_pos hrows]
      exact ⟨_, rfl⟩
    · rw [if_neg hrows]
      obtain ⟨blocks, hb, _⟩ := mapME_ok
        (renderRowLinesE defaultStyle (tableCds rows (some hs) colDefs)
          (tableWs rows (some hs) colDefs tw) g) rows
        (fun r _ => (renderRowLinesE_ok _ _ _ _ r hcds).imp (fun _ h => h.1))
      rw [hb]
      exact ⟨_, rfl⟩

/-! ### Jagged-row normalisation -/

theorem normalizeRow_length (n : Nat) (row : List Value) :
    (normalizeRow n row).length = n := by
  simp [normalizeRow]
  omega

theorem normalizeRow_getElem_lt (n : Nat) (row : List Value) (i : Nat)
    (hn : i < n) (hr : i < row.length) :
    (normalizeRow n row)[i]? = row[i]? := by
  unfold normalizeRow
  rw [List.getElem?_take_of_lt hn, List.getElem?_append, if_pos hr]

theorem normalizeRow_getElem_pad (n : Nat) (row : List Value) (i : Nat)
    (hn : i < n) (hr : row.length ≤ i) :
    (normalizeRow n row)[i]? = some Value.vnone := by
  unfold normalizeRow
  rw [List.getElem?_take_of_lt hn, List.getElem?_append_right hr,
    List.getElem?_replicate]
  rw [if_pos (by omega)]

theorem padTruncDefs_length (n : Nat) (defs : List ColDef) :
    (padTruncDefs n defs).length = n := by
  simp [padTruncDefs]
  omega

theorem normalizeRow_take (n : Nat) (row : List Value) :
    normalizeRow n (row.take n) = normalizeRow n row := by
  unfold normalizeRow
  rcases Nat.le_total row.length n with h | h
  · rw [List.take_of_length_le h]
  · have h1 : (row.take n).length = n := by
      rw [List.length_take]
      omega
    rw [h1, Nat.sub_self, Nat.sub_eq_zero_of_le h]
    simp [List.take_take]

theorem renderRowLinesE_take (st : TableStyle) (cds : List ColDef)
    (ws : List Nat) (g : String) (row : List Value) :
    renderRowLinesE st cds ws g (row.take cds.length)
      = renderRowLinesE st cds ws g row := by
  unfold renderRowLinesE
  rw [normalizeRow_take]

/-- C7. Shape mismatches degrade gracefully instead of raising: for any
rows (jagged or not), any header row and any possibly-mismatched
`col_defs` and `header_defs` lists without the explicit strict flag,
`get_table` returns a rendered table; both definition lists are padded
with defaults and truncated to the column count; the row renderer that
`get_table` maps over every row ignores cells beyond the definition
list's length, and its normalisation pads a short row with `none` cells
at the missing positions, keeps the cells in range, and drops the
excess cells of an overlong row. -/
theorem c7_jagged_rows_graceful :
    (∀ (rows : List (List Value)) (hdr : Option (List String))
      (colDefs headerDefs : List ColDef) (tw : Option Nat) (g : String),
      (∀ cd ∈ colDefs, cd.strict = false) →
      (∀ cd ∈ headerDefs, cd.strict = false) →
      ∃ out, get_table rows hdr colDefs headerDefs tw g = Except.ok out)
    ∧ (∀ (rows : List (List Value)) (hdr : Option (List String))
        (colDefs : List ColDef),
        (tableCds rows hdr colDefs).length = tableNcols rows hdr)
    ∧ (∀ (rows : List (List Value)) (hdr : Option (List String))
        (headerDefs : List ColDef),
        (tableHdrCds rows hdr headerDefs).length = tableNcols rows hdr)
    ∧ (∀ (st : TableStyle) (cds : List ColDef) (ws : List Nat) (g : String)
        (row : List Value),
        renderRowLinesE st cds ws g (row.take cds.length)
          = renderRowLinesE st cds ws g row)
    ∧ (∀ (n : Nat) (row : List Value), (normalizeRow n row).length = n)
    ∧ (∀ (n : Nat) (row : List Value) (i : Nat), i < n → i < row.length →
        (normalizeRow n row)[i]? = row[i]?)
    ∧ (∀ (n : Nat) (row : List Value) (i : Nat), i < n → row.length ≤ i →
        (normalizeRow n row)[i]? = some Value.vnone) :=
  ⟨fun rows hdr colDefs headerDefs tw g h h2 =>
      get_table_ok rows hdr colDefs headerDefs tw g h h2,
    fun rows hdr colDefs => padTruncDefs_length (tableNcols rows hdr) colDefs,
    fun rows hdr headerDefs => padTruncDefs_length (tableNcols rows hdr) headerDefs,
    renderRowLinesE_take,
    normalizeRow_length, normalizeRow_getElem_lt, normalizeRow_getElem_pad⟩

/-- Witness for C7 at the all-mismatched scenario of the cited tests:
jagged rows of lengths 3 and 2, a 4-entry header, 2 `col_defs` and a
single `header_def` render successfully; the row renderer over a single
width-10 column renders a 3-cell row identically to its first cell
alone; and normalising Bob's one-cell row to 3 columns keeps his cell
and pads position 2 with a `none` cell. -/
theorem c7_jagged_rows_graceful_witness :
    (∃ out, get_table
        [[Value.vstr "A", Value.vstr "B", Value.vstr "C"],
          [Value.vstr "D", Value.vstr "E"]]
        (some ["H1", "H2", "H3", "H4"])
        [{ width := 10, align := some '<' }, { width := 10, align := some '>' }]
        [{ width := 10, align := some '^' }]
        Option.none "" = Except.ok out)
    ∧ renderRowLinesE defaultStyle [{ width := 10 }] [10] ""
        ([Value.vstr "A", Value.vstr "B", Value.vstr "C"].take 1)
      = renderRowLinesE defaultStyle [{ width := 10 }] [10] ""
        [Value.vstr "A", Value.vstr "B", Value.vstr "C"]
    ∧ (normalizeRow 3 [Value.vstr "Bob"])[0]? = [Value.vstr "Bob"][0]?
    ∧ (normalizeRow 3 [Value.vstr "Bob"])[2]? = some Value.vnone
    ∧ (normalizeRow 2 [Value.vstr "G", Value.vstr "H", Value.vstr "I",
        Value.vstr "J"]).length = 2 :=
  ⟨c7_jagged_rows_graceful.1
      [[Value.vstr "A", Value.vstr "B", Value.vstr "C"],
        [Value.vstr "D", Value.vstr "E"]]
      (some ["H1", "H2", "H3", "H4"])
      [{ width := 10, align := some '<' }, { width := 10, align := some '>' }]
      [{ width := 10, align := some '^' }]
      Option.none ""
      (by
        intro cd hcd
        simp only [List.mem_cons, List.not_mem_nil, or_false] at hcd
        rcases hcd with h | h <;> rw [h])
      (by
        intro cd hcd
        simp only [List.mem_cons, List.not_mem_nil, or_false] at hcd
        rw [hcd]),
    c7_jagged_rows_graceful.2.2.2.1 defaultStyle [{ width := 10 }] [10] ""
      [Value.vstr "A", Value.vstr "B", Value.vstr "C"],
    c7_jagged_rows_graceful.2.2.2.2.2.1 3 [Value.vstr "Bob"] 0
      (by decide) (by decide),
    c7_jagged_rows_graceful.2.2.2.2.2.2 3 [Value.vstr "Bob"] 2
      (by decide) (by decide),
    c7_jagged_rows_graceful.2.2.2.2.1 2 _⟩

/-! ### Auto-fill width distribution -/

/-- Resolved widths of the auto-fill columns, in column order. -/
def autosOf (cds : List ColDef) (ws : List Nat) : List Nat :=
  (cds.zip ws).filterMap (fun p => if isAutoCol p.1 then some p.2 else Option.none)

theorem countAuto_cons (cd : ColDef) (rest : List ColDef) :
    countAuto (cd :: rest) = (if isAutoCol cd then 1 else 0) + countAuto rest := by
  simp only [countAuto, List.filter_cons]
  split
  · simp
    omega
  · simp

theorem autosOf_cons (cd : ColDef) (rest : List ColDef) (w : Nat) (ws : List Nat) :
    autosOf (cd :: rest) (w :: ws)
      = if isAutoCol cd then w :: autosOf rest ws else autosOf rest ws := by
  simp only [autosOf, List.zip_cons_cons, List.filterMap_cons]
  split <;> simp_all

theorem distribute_cons (cd : ColDef) (rest : List ColDef) (b r : Nat) :
    distribute (cd :: rest) b r
      = (if isAutoCol cd then
          (if countAuto rest = 0 then b + r else b)
         else cd.width) :: distribute rest b r := rfl

theorem autosOf_distribute_nil (cds : List ColDef) (b r : Nat)
    (h : countAuto cds = 0) : autosOf cds (distribute cds b r) = [] := by
  induction cds with
  | nil => rfl
  | cons cd rest ih =>
    rw [countAuto_cons] at h
    have ha : isAutoCol cd = false := by
      by_contra hc
      rw [Bool.not_eq_false] at hc
      rw [hc, if_pos rfl] at h
      omega
    rw [distribute_cons, autosOf_cons, if_neg (by simp [ha])]
    rw [ha, if_neg (by simp)] at h
    exact ih (by omega)

theorem autosOf_distribute (cds : List ColDef) (b r : Nat)
    (h : 1 ≤ countAuto cds) :
    autosOf cds (distribute cds b r)
      = List.replicate (countAuto cds - 1) b ++ [b + r] := by
  induction cds with
  | nil => simp [countAuto] at h
  | cons cd rest ih =>
    rw [countAuto_cons] at h ⊢
    rw [distribute_cons, autosOf_cons]
    by_cases ha : isAutoCol cd = true
    · rw [if_pos ha, ha, if_pos rfl]
      by_cases h0 : countAuto rest = 0
      · rw [if_pos h0, autosOf_distribute_nil rest b r h0, h0]
        rfl
      · rw [if_neg h0, ih (by omega)]
        have hk : countAuto rest - 1 + 1 = countAuto rest := by omega
        calc b :: (List.replicate (countAuto rest - 1) b ++ [b + r])
            = List.replicate (countAuto rest - 1 + 1) b ++ [b + r] := by
              simp [List.replicate_succ]
          _ = List.replicate (1 + countAuto rest - 1) b ++ [b + r] := by
              rw [hk]
              congr 1
              congr 1
              omega
    · rw [Bool.not_eq_true] at ha
      rw [if_neg (by simp [ha]), ha, if_neg (by simp)]
      rw [ha, if_neg (by simp)] at h
      rw [ih (by omega)]
      congr 2
      omega

theorem replicate_append_sum (k b r : Nat) (hk : 1 ≤ k) :
    (List.replicate (k - 1) b ++ [b + r]).sum = k * b + r := by
  rw [List.sum_append, List.sum_replicate]
  simp only [smul_eq_mul, List.sum_cons, List.sum_nil]
  have : (k - 1) * b + b = k * b := by
    have hk2 : k - 1 + 1 = k := by omega
    calc (k - 1) * b + b = ((k - 1) + 1) * b := by ring
      _ = k * b := by rw [hk2]
  omega

/-- C8 counterexample. With three auto-fill columns and table width 15
(fixed widths 0, style overhead 10, so 5 characters remain), the model
assigns the whole remainder to the last auto column: the resolved auto
widths are 1, 1 and 3, and the first and last differ by 2, not at most
1 — the claim's "differ from each other by at most 1" fails as soon as
there are three or more auto columns and the remainder exceeds 1. -/
theorem c8_counterexample :
    countAuto [defaultColDef, defaultColDef, defaultColDef] = 3
    ∧ fixedSum [defaultColDef, defaultColDef, defaultColDef]
        + styleOverhead defaultStyle 3 ≤ 15
    ∧ autosOf [defaultColDef, defaultColDef, defaultColDef]
        (resolveWidths [defaultColDef, defaultColDef, defaultColDef]
          [] Option.none (some 15) defaultStyle)
      = [1, 1, 3]
    ∧ ¬ ((3 : Nat) - 1 ≤ 1) :=
  ⟨rfl, by decide, rfl, by decide⟩

/-- C8 (amended). With a target table width and at least one auto-fill
column, the resolved auto widths sum to the table width minus the fixed
widths minus the style overhead; every auto column except the last gets
the even share and the last additionally receives the whole remainder
(which is less than the number of auto columns), so with exactly two
auto-fill columns any two resolved auto widths differ by at most 1. -/
theorem c8_auto_fill_distribution (cds : List ColDef) (rows : List (List Value))
    (hdr : Option (List String)) (w : Nat)
    (hk : 2 ≤ countAuto cds)
    (_hfit : fixedSum cds + styleOverhead defaultStyle cds.length ≤ w) :
    autosOf cds (resolveWidths cds rows hdr (some w) defaultStyle)
      = List.replicate (countAuto cds - 1)
          ((w - fixedSum cds - styleOverhead defaultStyle cds.length) / countAuto cds)
        ++ [(w - fixedSum cds - styleOverhead defaultStyle cds.length) / countAuto cds
          + (w - fixedSum cds - styleOverhead defaultStyle cds.length) % countAuto cds]
    ∧ (autosOf cds (resolveWidths cds rows hdr (some w) defaultStyle)).sum
      = w - fixedSum cds - styleOverhead defaultStyle cds.length
    ∧ (countAuto cds = 2 →
      ∀ x ∈ autosOf cds (resolveWidths cds rows hdr (some w) defaultStyle),
      ∀ y ∈ autosOf cds (resolveWidths cds rows hdr (some w) defaultStyle),
      x - y ≤ 1) := by
  have hk1 : 1 ≤ countAuto cds := by omega
  have hmain : autosOf cds (resolveWidths cds rows hdr (some w) defaultStyle)
      = List.replicate (countAuto cds - 1)
          ((w - fixedSum cds - styleOverhead defaultStyle cds.length) / countAuto cds)
        ++ [(w - fixedSum cds - styleOverhead defaultStyle cds.length) / countAuto cds
          + (w - fixedSum cds - styleOverhead defaultStyle cds.length) % countAuto cds] := by
    unfold resolveWidths
    exact autosOf_distribute cds _ _ hk1
  refine ⟨hmain, ?_, ?_⟩
  · rw [hmain, replicate_append_sum _ _ _ hk1]
    have := Nat.div_add_mod
      (w - fixedSum cds - styleOverhead defaultStyle cds.length) (countAuto cds)
    omega
  · intro h2 x hx y hy
    rw [hmain, h2] at hx hy
    have hmod : (w - fixedSum cds - styleOverhead defaultStyle cds.length) % 2 < 2 :=
      Nat.mod_lt _ (by omega)
    simp only [List.mem_append, List.mem_replicate, List.mem_singleton] at hx hy
    rcases hx with ⟨_, hx⟩ | hx <;> rcases hy with ⟨_, hy⟩ | hy <;> omega

/-- Witness for the amended C8: two auto columns beside a fixed width-5
column at table width 60 (overhead 10) resolve to 22 and 23: they sum to
45 and differ by at most 1. -/
theorem c8_auto_fill_distribution_witness :
    autosOf [defaultColDef, defaultColDef, { width := 5 }]
        (resolveWidths [defaultColDef, defaultColDef, { width := 5 }]
          [] Option.none (some 60) defaultStyle)
      = [22, 23]
    ∧ (autosOf [defaultColDef, defaultColDef, { width := 5 }]
        (resolveWidths [defaultColDef, defaultColDef, { width := 5 }]
          [] Option.none (some 60) defaultStyle)).sum = 45 :=
  let h := c8_auto_fill_distribution [defaultColDef, defaultColDef, { width := 5 }]
    [] Option.none 60 (by decide) (by decide)
  ⟨h.1, h.2.1⟩

/-! ### Empty-dataset placeholder -/

theorem joinNL_infix_of_mem (L : List (List Char)) (l : List Char) (hl : l ∈ L) :
    ∃ a b, joinNL L = a ++ l ++ b := by
  induction L with
  | nil => exact absurd hl (List.not_mem_nil l)
  | cons x xs ih =>
    rcases List.mem_cons.mp hl with he | hm
    · subst he
      rcases xs with _ | ⟨y, ys⟩
      · exact ⟨[], [], by simp [joinNL]⟩
      · exact ⟨[], '\n' :: joinNL (y :: ys), by simp [joinNL]⟩
    · have hxs : xs ≠ [] := List.ne_nil_of_mem hm
      obtain ⟨a, b, hab⟩ := ih hm
      rcases xs with _ | ⟨y, ys⟩
      · exact absurd rfl hxs
      · refine ⟨x ++ '\n' :: a, b, ?_⟩
        have hj : joinNL (x :: y :: ys) = x ++ '\n' :: joinNL (y :: ys) := rfl
        rw [hj, hab]
        simp

/-- C9. An empty dataset — no data rows, with or without a header row —
renders a table whose output contains the literal phrase
"No data to display" rather than an empty string or an error (stated for
definition lists without the explicit strict flag, which alone can make
rendering fail). -/
theorem c9_no_data_message (hdr : Option (List String))
    (colDefs headerDefs : List ColDef) (tw : Option Nat) (g : String)
    (_hstrict : ∀ cd ∈ colDefs, cd.strict = false)
    (hstrict2 : ∀ cd ∈ headerDefs, cd.strict = false) :
    ∃ out, get_table [] hdr colDefs headerDefs tw g = Except.ok out
      ∧ ∃ a b, out.data = a ++ noDataMsg.data ++ b := by
  unfold get_table
  rcases hdr with _ | hs
  · simp only [List.isEmpty_nil, if_true]
    refine ⟨_, rfl, ?_⟩
    apply joinNL_infix_of_mem
    simp
  · obtain ⟨hls, hh, _⟩ := renderRowLinesE_ok defaultStyle
      (tableHdrCds [] (some hs) headerDefs) (tableWs [] (some hs) colDefs tw) g
      (hs.map Value.vstr)
      (padTruncDefs_strict (tableNcols [] (some hs)) headerDefs hstrict2)
    simp only [hh, List.isEmpty_nil, if_true]
    refine ⟨_, rfl, ?_⟩
    apply joinNL_infix_of_mem
    simp

/-- Witness for C9: `get_table` on no rows with header `["A", "B"]` and
no definition lists succeeds and its output contains the phrase. -/
theorem c9_no_data_message_witness :
    ∃ out, get_table [] (some ["A", "B"]) [] [] Option.none "" = Except.ok out
      ∧ ∃ a b, out.data = a ++ noDataMsg.data ++ b :=
  c9_no_data_message (some ["A", "B"]) [] [] Option.none ""
    (fun _ h => absurd h (List.not_mem_nil _))
    (fun _ h => absurd h (List.not_mem_nil _))

/-! ### Row-order preservation -/

/-- Index of the first occurrence of `pat` in a character sequence (the
length of the haystack when there is none): the reading of "first
occurrence ... appears before" used by the row-order claim. -/
def firstOccurIdx (pat : List Char) : List Char → Nat
  | [] => 0
  | c :: rest =>
    if pat.isPrefixOf (c :: rest) then 0 else 1 + firstOccurIdx pat rest

theorem joinNL_append (A B : List (List Char)) (hA : A ≠ []) (hB : B ≠ []) :
    joinNL (A ++ B) = joinNL A ++ '\n' :: joinNL B := by
  induction A with
  | nil => exact absurd rfl hA
  | cons x A2 ih =>
    rcases A2 with _ | ⟨y, ys⟩
    · rcases B with _ | ⟨b, bs⟩
      · exact absurd rfl hB
      · rfl
    · calc joinNL ((x :: y :: ys) ++ B)
          = x ++ '\n' :: joinNL ((y :: ys) ++ B) := rfl
        _ = x ++ '\n' :: (joinNL (y :: ys) ++ '\n' :: joinNL B) := by
            rw [ih (by simp)]
        _ = (x ++ '\n' :: joinNL (y :: ys)) ++ '\n' :: joinNL B := by simp
        _ = joinNL (x :: y :: ys) ++ '\n' :: joinNL B := rfl

theorem joinNL_segments (p x m y s : List (List Char))
    (hp : p ≠ []) (hx : x ≠ []) (hy : y ≠ []) (hs : s ≠ []) :
    ∃ a b c, joinNL (p ++ x ++ m ++ y ++ s)
      = a ++ joinNL x ++ b ++ joinNL y ++ c := by
  have hys : y ++ s ≠ [] := by simp [hy]
  have hmys : m ++ (y ++ s) ≠ [] := by simp [hy]
  have hxmys : x ++ (m ++ (y ++ s)) ≠ [] := by simp [hx]
  have hassoc : p ++ x ++ m ++ y ++ s = p ++ (x ++ (m ++ (y ++ s))) := by
    simp [List.append_assoc]
  rw [hassoc, joinNL_append p _ hp hxmys, joinNL_append x _ hx hmys]
  by_cases hm : m = []
  · subst hm
    rw [List.nil_append, joinNL_append y s hy hs]
    exact ⟨joinNL p ++ ['\n'], ['\n'], '\n' :: joinNL s, by simp⟩
  · rw [joinNL_append m _ hm hys, joinNL_append y s hy hs]
    exact ⟨joinNL p ++ ['\n'], '\n' :: joinNL m ++ ['\n'], '\n' :: joinNL s,
      by simp⟩

theorem mapME_ok_get {α β : Type} (f : α → Except FTError β) :
    ∀ (l : List α) (ys : List β), mapME f l = Except.ok ys →
    ys.length = l.length
    ∧ ∀ (i : Nat) (hi : i < l.length) (hi2 : i < ys.length),
      f (l.get ⟨i, hi⟩) = Except.ok (ys.get ⟨i, hi2⟩) := by
  intro l
  induction l with
  | nil =>
    intro ys h
    unfold mapME at h
    simp only [Except.ok.injEq] at h
    subst h
    exact ⟨rfl, fun i hi _ => absurd hi (by simp)⟩
  | cons a l2 ih =>
    intro ys h
    unfold mapME at h
    rcases hfx : f a with e | b
    · rw [hfx] at h
      exact absurd h (by simp)
    · rw [hfx] at h
      rcases hm : mapME f l2 with e | ys2
      · rw [hm] at h
        exact absurd h (by simp)
      · rw [hm] at h
        simp only [Except.ok.injEq] at h
        subst h
        obtain ⟨hlen, hget⟩ := ih ys2 hm
        refine ⟨by simp [hlen], ?_⟩
        intro i hi hi2
        rcases i with _ | i2
        · exact hfx
        · exact hget i2 (by simpa using hi) (by simpa using hi2)

theorem one_split {α : Type} (l : List α) (k : Nat) (hk : k < l.length) :
    l = l.take k ++ l.get ⟨k, hk⟩ :: l.drop (k + 1) := by
  conv_lhs => rw [← List.take_append_drop k l]
  rw [List.drop_eq_getElem_cons hk]
  simp [List.get_eq_getElem]

theorem two_split {α : Type} (l : List α) (i j : Nat)
    (hi : i < l.length) (hj : j < l.length) (hij : i < j) :
    ∃ a b c, l = a ++ l.get ⟨i, hi⟩ :: (b ++ l.get ⟨j, hj⟩ :: c) := by
  refine ⟨l.take i, (l.drop (i + 1)).take (j - i - 1), l.drop (j + 1), ?_⟩
  have h1 := one_split l i hi
  have hj2 : j - i - 1 < (l.drop (i + 1)).length := by
    simp only [List.length_drop]
    omega
  have h2 := one_split (l.drop (i + 1)) (j - i - 1) hj2
  have hg : (l.drop (i + 1)).get ⟨j - i - 1, hj2⟩ = l.get ⟨j, hj⟩ := by
    simp only [List.get_eq_getElem, List.getElem_drop]
    congr 1
    omega
  have hd : (l.drop (i + 1)).drop (j - i - 1 + 1) = l.drop (j + 1) := by
    rw [List.drop_drop]
    congr 1
    omega
  rw [hg, hd] at h2
  exact h1.trans (congrArg (fun t => l.take i ++ l.get ⟨i, hi⟩ :: t) h2)

theorem renderRowLinesE_ne_nil (st : TableStyle) (cds : List ColDef)
    (ws : List Nat) (g : String) (row : List Value) (ls : List (List Char))
    (h : renderRowLinesE st cds ws g row = Except.ok ls) : ls ≠ [] := by
  unfold renderRowLinesE at h
  rcases hm : mapME
      (fun c => renderCellLinesE (c.1.1.set_width c.1.2) g
        (normalizeRow cds.length row) c.2.1 c.2.2)
      ((cds.zip ws).zip (normalizeRow cds.length row).enum) with e | cellLines
  · simp only [hm] at h
    exact absurd h (by simp)
  · simp only [hm, Except.ok.injEq] at h
    subst h
    intro hcontra
    rw [List.map_eq_nil_iff, List.range_eq_nil] at hcontra
    omega

theorem table_order_core (cds : List ColDef) (ws : List Nat) (g : String)
    (rows : List (List Value)) (hdrLines : List (List Char))
    (blocks : List (List (List Char))) (out : String)
    (hm : mapME (renderRowLinesE defaultStyle cds ws g) rows = Except.ok blocks)
    (hout : out = String.mk (joinNL
      ([borderLine ws] ++ hdrLines ++ blocks.flatten ++ [borderLine ws])))
    (i j : Nat) (hi : i < rows.length) (hj : j < rows.length) (hij : i < j) :
    ∃ bi bj, renderRowLinesE defaultStyle cds ws g (rows.get ⟨i, hi⟩) = Except.ok bi
      ∧ renderRowLinesE defaultStyle cds ws g (rows.get ⟨j, hj⟩) = Except.ok bj
      ∧ ∃ a b c, out.data = a ++ joinNL bi ++ b ++ joinNL bj ++ c := by
  obtain ⟨hlen, hget⟩ := mapME_ok_get _ rows blocks hm
  have hib : i < blocks.length := by omega
  have hjb : j < blocks.length := by omega
  have hgi := hget i hi hib
  have hgj := hget j hj hjb
  refine ⟨blocks.get ⟨i, hib⟩, blocks.get ⟨j, hjb⟩, hgi, hgj, ?_⟩
  obtain ⟨A, B, C, hsplit⟩ := two_split blocks i j hib hjb hij
  have hbi : blocks.get ⟨i, hib⟩ ≠ [] :=
    renderRowLinesE_ne_nil defaultStyle cds ws g (rows.get ⟨i, hi⟩) _ hgi
  have hbj : blocks.get ⟨j, hjb⟩ ≠ [] :=
    renderRowLinesE_ne_nil defaultStyle cds ws g (rows.get ⟨j, hj⟩) _ hgj
  have hlines : [borderLine ws] ++ hdrLines ++ blocks.flatten ++ [borderLine ws]
      = ([borderLine ws] ++ hdrLines ++ A.flatten) ++ blocks.get ⟨i, hib⟩
        ++ B.flatten ++ blocks.get ⟨j, hjb⟩ ++ (C.flatten ++ [borderLine ws]) := by
    conv_lhs => rw [hsplit]
    simp [List.flatten_append, List.flatten_cons, List.append_assoc]
  have hdata : out.data = joinNL
      ([borderLine ws] ++ hdrLines ++ blocks.flatten ++ [borderLine ws]) := by
    rw [hout]
  rw [hdata, hlines]
  exact joinNL_segments _ _ _ _ _ (by simp) hbi hbj (by simp)

/-- C10 (amended). `get_table` renders rows in input order: for input
positions `i < j`, the output contains an occurrence of row `i`'s
rendered content strictly before an occurrence of row `j`'s rendered
content (the occurrences at the rows' own body lines); the original
claim about first occurrences fails when two rows render identically. -/
theorem c10_rows_in_order (rows : List (List Value)) (hdr : Option (List String))
    (colDefs headerDefs : List ColDef) (tw : Option Nat) (g : String) (out : String)
    (i j : Nat) (hi : i < rows.length) (hj : j < rows.length) (hij : i < j)
    (hok : get_table rows hdr colDefs headerDefs tw g = Except.ok out) :
    ∃ bi bj, renderRowLinesE defaultStyle (tableCds rows hdr colDefs)
        (tableWs rows hdr colDefs tw) g (rows.get ⟨i, hi⟩) = Except.ok bi
      ∧ renderRowLinesE defaultStyle (tableCds rows hdr colDefs)
          (tableWs rows hdr colDefs tw) g (rows.get ⟨j, hj⟩) = Except.ok bj
      ∧ ∃ a b c, out.data = a ++ joinNL bi ++ b ++ joinNL bj ++ c := by
  have hne : rows.isEmpty = false := by
    rcases rows with _ | ⟨r, rs⟩
    · simp at hi
    · rfl
  unfold get_table at hok
  rcases hdr with _ | hs
  · simp only [hne, Bool.false_eq_true, if_false] at hok
    rcases hmm : mapME (renderRowLinesE defaultStyle
        (tableCds rows Option.none colDefs)
        (tableWs rows Option.none colDefs tw) g) rows with e | blocks
    · rw [hmm] at hok
      exact absurd hok (by simp)
    · rw [hmm] at hok
      simp only [Except.ok.injEq] at hok
      exact table_order_core _ _ _ rows [] blocks out hmm hok.symm i j hi hj hij
  · simp only [hne, Bool.false_eq_true, if_false] at hok
    rcases hh : renderRowLinesE defaultStyle
        (tableHdrCds rows (some hs) headerDefs)
        (tableWs rows (some hs) colDefs tw) g (hs.map Value.vstr) with e | hls
    · simp only [hh] at hok
      exact absurd hok (by simp)
    · simp only [hh] at hok
      rcases hmm : mapME (renderRowLinesE defaultStyle
          (tableCds rows (some hs) colDefs)
          (tableWs rows (some hs) colDefs tw) g) rows with e | blocks
      · simp only [hmm] at hok
        exact absurd hok (by simp)
      · simp only [hmm, Except.ok.injEq] at hok
        exact table_order_core _ _ _ rows
          (hls ++ [borderLine (tableWs rows (some hs) colDefs tw)]) blocks out
          hmm hok.symm i j hi hj hij

/-- C10 counterexample. For the input rows `[["A"], ["A"]]` (positions
0 < 1) both rows render to the same content `"| A |"`, so the first
occurrence of row 0's rendered content and the first occurrence of
row 1's rendered content are the same position of the output — the
former does not appear strictly before the latter, refuting the claim
as stated. -/
theorem c10_counterexample :
    get_table [[Value.vstr "A"], [Value.vstr "A"]] Option.none [] [] Option.none ""
      = Except.ok "+---+\n| A |\n| A |\n+---+"
    ∧ (renderRowLinesE defaultStyle
        (tableCds [[Value.vstr "A"], [Value.vstr "A"]] Option.none [])
        (tableWs [[Value.vstr "A"], [Value.vstr "A"]] Option.none [] Option.none)
        "" [Value.vstr "A"]).map joinNL = Except.ok (String.data "| A |")
    ∧ ¬ (firstOccurIdx (String.data "| A |")
          (String.data "+---+\n| A |\n| A |\n+---+")
        < firstOccurIdx (String.data "| A |")
          (String.data "+---+\n| A |\n| A |\n+---+")) :=
  ⟨rfl, rfl, Nat.lt_irrefl _⟩

/-- Witness for the amended C10: in the three-row table
`[["First"], ["Second"], ["Third"]]`, row 0's rendered content occurs
before row 1's in the concrete output. -/
theorem c10_rows_in_order_witness :
    ∃ bi bj, renderRowLinesE defaultStyle
        (tableCds [[Value.vstr "First"], [Value.vstr "Second"], [Value.vstr "Third"]]
          Option.none [])
        (tableWs [[Value.vstr "First"], [Value.vstr "Second"], [Value.vstr "Third"]]
          Option.none [] Option.none)
        "" [Value.vstr "First"] = Except.ok bi
      ∧ renderRowLinesE defaultStyle
          (tableCds [[Value.vstr "First"], [Value.vstr "Second"], [Value.vstr "Third"]]
            Option.none [])
          (tableWs [[Value.vstr "First"], [Value.vstr "Second"], [Value.vstr "Third"]]
            Option.none [] Option.none)
          "" [Value.vstr "Second"] = Except.ok bj
      ∧ ∃ a b c, (String.data
          "+--------+\n| First  |\n| Second |\n| Third  |\n+--------+")
        = a ++ joinNL bi ++ b ++ joinNL bj ++ c :=
  c10_rows_in_order
    [[Value.vstr "First"], [Value.vstr "Second"], [Value.vstr "Third"]]
    Option.none [] [] Option.none ""
    "+--------+\n| First  |\n| Second |\n| Third  |\n+--------+"
    0 1 (by decide) (by decide) (by decide) rfl

end FTable
